import Mathlib

/-!
Verification of the checkpoint-acceptance protocol and the storage
garbage-collection subsystem of the hornet node, as a shallow embedding
of `plugins/tangle` (`processValidMilestone`) and
`plugins/database/plugin.go` (`runGarbageCollectionWithoutLocking`,
`RunGarbageCollection`, `RunFullGarbageCollection`).

Functions are embedded as pure Lean functions producing an explicit
trace of side-effecting actions (event triggers, log calls, lock
operations, reference-count operations), so that ordering and counting
properties of the original imperative code become statements about
lists.
-/

namespace Tangle

/-- The bundle wrapped by a `CachedBundle` handle: the milestone index and
the milestone hash, the two pieces of payload `processValidMilestone`
reads. -/
structure Bundle where
  milestoneIndex : Nat
  milestoneHash : Nat
  deriving DecidableEq, Repr

/-- The shared consensus state read by `processValidMilestone`:
`tangle.GetLatestMilestoneIndex()`, `tangle.GetSolidMilestoneIndex()` and
`tangle.GetSnapshotInfo().PruningIndex`. -/
structure TangleState where
  latestMilestoneIndex : Nat
  solidMilestoneIndex : Nat
  pruningIndex : Nat
  deriving DecidableEq, Repr

/-- One observable action of `processValidMilestone`, in program order.
Reference-count actions are recorded from the point of view of the
function's own ownership of the `CachedBundle` handle: event triggers
retain per attached handler inside the event machinery and each handler
releases its own copy, so a trigger is net zero for this function. -/
inductive MAction where
  /-- `cachedBndl.Release()` (the deferred release). -/
  | releaseBundle
  /-- `cachedBndl.Retain()`. -/
  | retainBundle
  /-- `Events.ReceivedNewMilestone.Trigger(cachedBndl)`. -/
  | triggerReceivedNewMilestone (b : Bundle)
  /-- `tangle.SetLatestMilestone(...)`: consumes the retained reference
  passed to it. -/
  | setLatestMilestone (idx : Nat)
  /-- `log.Error(err)` on persistence failure. -/
  | logError
  /-- `Events.LatestMilestoneChanged.Trigger(cachedBndl)`. -/
  | triggerLatestMilestoneChanged (b : Bundle)
  /-- `milestoneSolidifierWorkerPool.Submit(...)`. -/
  | submitSolidificationTask (idx : Nat)
  /-- `log.Infof("Valid milestone detected! ...")`. -/
  | logInfoValidMilestone (idx : Nat)
  /-- `gossip.RequestMilestoneApprovees(...)`: consumes the retained
  reference passed to it. -/
  | requestMilestoneApprovees
  /-- `tangle.GetSnapshotInfo().PruningIndex` is read (only in the
  `bundleMsIndex <= solidMsIndex` branch). -/
  | readPruningIndex
  /-- `log.Panicf("Synced too far! Index: %d (%v), PruningIndex: %d", ...)`:
  the diagnostic carries the index, the milestone hash and the pruning
  floor, and the process halts. -/
  | panicSyncedTooFar (idx hash pruning : Nat)
  deriving DecidableEq, Repr

/-- Modelled from the spec: the body of `tangle.SetLatestMilestone` is not
part of the two embedded source files (it lives in the model/tangle
package); per the spec, on success it atomically sets
`latestIndex = idx`, and on failure the in-memory pointer is not
advanced. `persistOk` is whether persistence succeeds. -/
def SetLatestMilestone (st : TangleState) (idx : Nat) (persistOk : Bool) :
    TangleState :=
  if persistOk then { st with latestMilestoneIndex := idx } else st

/-- Result of one `processValidMilestone` call: the consensus state after
the call, the trace of actions in program order, and whether the call hit
the fatal `log.Panicf` path. -/
structure MResult where
  state : TangleState
  trace : List MAction
  panicked : Bool
  deriving DecidableEq, Repr

/-- Shallow embedding of `processValidMilestone` (plugins/tangle).
`persistOk` models the error result of `tangle.SetLatestMilestone`.
The deferred `cachedBndl.Release()` is the last action on every path:
Go runs deferred calls also while a panic unwinds. -/
def processValidMilestone (st : TangleState) (b : Bundle) (persistOk : Bool) :
    MResult :=
  let trace0 : List MAction := [.triggerReceivedNewMilestone b]
  let solidMsIndex := st.solidMilestoneIndex
  let bundleMsIndex := b.milestoneIndex
  let latestMilestoneIndex := st.latestMilestoneIndex
  let (st1, trace1) :=
    if latestMilestoneIndex < bundleMsIndex then
      (SetLatestMilestone st bundleMsIndex persistOk,
       trace0 ++ [MAction.retainBundle, .setLatestMilestone bundleMsIndex] ++
         (if persistOk then [] else [MAction.logError]) ++
         [MAction.triggerLatestMilestoneChanged b])
    else (st, trace0)
  let trace2 := trace1 ++ [MAction.submitSolidificationTask bundleMsIndex]
  if bundleMsIndex > solidMsIndex then
    { state := st1,
      trace := trace2 ++
        [MAction.logInfoValidMilestone bundleMsIndex, .retainBundle,
         .requestMilestoneApprovees, .releaseBundle],
      panicked := false }
  else
    if bundleMsIndex < st.pruningIndex then
      { state := st1,
        trace := trace2 ++
          [MAction.readPruningIndex,
           .panicSyncedTooFar bundleMsIndex b.milestoneHash st.pruningIndex,
           .releaseBundle],
        panicked := true }
    else
      { state := st1,
        trace := trace2 ++ [MAction.readPruningIndex, .releaseBundle],
        panicked := false }

/-- `true` exactly on a `setLatestMilestone` action. -/
def isSetLatest : MAction → Bool
  | .setLatestMilestone _ => true
  | _ => false

/-- `true` exactly on a `requestMilestoneApprovees` action. -/
def isRequest : MAction → Bool
  | .requestMilestoneApprovees => true
  | _ => false

/-- `true` exactly on a `releaseBundle` action. -/
def isRelease : MAction → Bool
  | .releaseBundle => true
  | _ => false

/-- Processing a list of milestone bundles in order, threading the
consensus state, with persistence always succeeding. A fatal panic stops
the run (the process halts); the flag records whether that happened. -/
def processSeq (st : TangleState) : List Bundle → TangleState × List MAction × Bool
  | [] => (st, [], false)
  | b :: rest =>
    let r := processValidMilestone st b true
    if r.panicked then (r.state, r.trace, true)
    else
      let next := processSeq r.state rest
      (next.1, r.trace ++ next.2.1, next.2.2)

/-- The change an action makes to the number of references to the
`CachedBundle` owned by `processValidMilestone` itself: `Release` drops
one, `Retain` adds one, and handing a retained reference to
`SetLatestMilestone` or `RequestMilestoneApprovees` transfers one away.
Event triggers are net zero for this function: the event machinery
retains one reference per attached handler and each handler releases its
own copy. -/
def refDelta : MAction → Int
  | .releaseBundle => -1
  | .retainBundle => 1
  | .setLatestMilestone _ => -1
  | .requestMilestoneApprovees => -1
  | _ => 0

/-- `balancedFrom held trace` holds when, starting from `held` owned
references, the reference count never goes negative at any point of the
trace (no double free / use of a transferred reference) and is exactly
zero at the end (no leak). -/
def balancedFrom : Int → List MAction → Bool
  | held, [] => held == 0
  | held, a :: rest =>
    (0 ≤ held + refDelta a) && balancedFrom (held + refDelta a) rest

end Tangle

namespace Database

/-- Error result of one `database.CleanupHornetBadgerInstance` call:
`noRewrite` is `badger.ErrNoRewrite` ("nothing to compact"), `other` is
any other error (tagged by an opaque code). -/
inductive GCErr where
  | noRewrite
  | other (code : Nat)
  deriving DecidableEq, Repr

/-- The environment of one compaction pass: the two `time.Now()` readings
taken at the start and at the end of the pass, and the error result the
storage engine returns for that pass. -/
structure PassEnv where
  start : Nat
  endTime : Nat
  err : Option GCErr
  deriving DecidableEq, Repr

/-- One observable action of the database plugin's GC routines, in program
order. -/
inductive DBAction where
  /-- `garbageCollectionLock.Lock()`. -/
  | lockGC
  /-- `garbageCollectionLock.Unlock()` (deferred). -/
  | unlockGC
  /-- `log.Info("running database garbage collection.")`. -/
  | logInfoRunningGC
  /-- `log.Info("running full database garbage collection. ...")`. -/
  | logInfoRunningFullGC
  /-- `start := time.Now()`. -/
  | recordStart (t : Nat)
  /-- `Events.DatabaseCleanup.Trigger(&DatabaseCleanup{Start: start})`. -/
  | triggerCleanupStart (start : Nat)
  /-- `database.CleanupHornetBadgerInstance(discardRatio...)`. -/
  | compact (discardRatio : Option ℚ)
  /-- `end := time.Now()`. -/
  | recordEnd (t : Nat)
  /-- `Events.DatabaseCleanup.Trigger(&DatabaseCleanup{Start: start, End: end})`. -/
  | triggerCleanupFinish (start endTime : Nat)
  /-- `runtime.GC()`. -/
  | runtimeGC
  /-- `log.Infof("database garbage collection finished. nothing to clean up. ...")`. -/
  | logInfoFinishedNothing (duration : Nat)
  /-- `log.Warnf("database garbage collection failed with error: ...")`. -/
  | logWarnGCFailed (code duration : Nat)
  /-- `log.Infof("database garbage collection finished. took ...")`. -/
  | logInfoFinished (duration : Nat)
  /-- `log.Warnf("full database garbage collection failed with error: ...")`. -/
  | logWarnFullGCFailed (code : Nat)
  /-- `log.Infof("full database garbage collection finished. cleaned up %d files. ...")`. -/
  | logInfoFullFinished (cleanups : Nat)
  deriving DecidableEq, Repr

/-- Shallow embedding of `runGarbageCollectionWithoutLocking`
(plugins/database/plugin.go). `dr` is the variadic `discardRatio`
argument passed through to the engine (`none` = not supplied, engine
default). Returns `((duration, err), trace)` where `duration` is
`end.Sub(start)` and `err` is the engine's result. -/
def runGarbageCollectionWithoutLocking (dr : Option ℚ) (env : PassEnv) :
    (Nat × Option GCErr) × List DBAction :=
  ((env.endTime - env.start, env.err),
   [.recordStart env.start,
    .triggerCleanupStart env.start,
    .compact dr,
    .recordEnd env.endTime,
    .triggerCleanupFinish env.start env.endTime,
    .runtimeGC])

/-- Shallow embedding of `RunGarbageCollection`
(plugins/database/plugin.go): one pass under the GC lock, with the error
triage on the pass result. -/
def RunGarbageCollection (env : PassEnv) : List DBAction :=
  let core := runGarbageCollectionWithoutLocking none env
  let duration := core.1.1
  [DBAction.lockGC, .logInfoRunningGC] ++ core.2 ++
    (match core.1.2 with
     | some (.other c) => [DBAction.logWarnGCFailed c duration]
     | some .noRewrite => [DBAction.logInfoFinishedNothing duration]
     | none => [DBAction.logInfoFinished duration]) ++
    [DBAction.unlockGC]

/-- How a full-GC run ends: `finished cleanups` via the
`badger.ErrNoRewrite` exit of the loop (final log reports `cleanups`),
or `aborted code` via the early `return` on any other error. -/
inductive FullGCOutcome where
  | finished (cleanups : Nat)
  | aborted (code : Nat)
  deriving DecidableEq, Repr

/-- The `for err == nil` loop of `RunFullGarbageCollection`, embedded as
recursion over the list of pass environments the engine will supply.
`cleanups` is the accumulator incremented after each successful pass.
An outcome of `none` means the modelled passes were exhausted while the
loop condition still held (the real loop would keep running). -/
def fullGCLoop (dr : Option ℚ) : List PassEnv → Nat →
    List DBAction × Option FullGCOutcome
  | [], _ => ([], none)
  | env :: rest, cleanups =>
    let core := runGarbageCollectionWithoutLocking dr env
    match core.1.2 with
    | some (GCErr.other c) =>
        (core.2 ++ [DBAction.logWarnFullGCFailed c], some (.aborted c))
    | some GCErr.noRewrite =>
        (core.2 ++ [DBAction.logInfoFullFinished cleanups],
         some (.finished cleanups))
    | none =>
        let next := fullGCLoop dr rest (cleanups + 1)
        (core.2 ++ next.1, next.2)

/-- Shallow embedding of `RunFullGarbageCollection`
(plugins/database/plugin.go): lock once, loop passes until the engine
reports something other than success, unlock. The deferred unlock is
emitted only when the loop actually exits within the modelled passes
(the real function would not return otherwise). -/
def RunFullGarbageCollection (dr : Option ℚ) (envs : List PassEnv) :
    List DBAction × Option FullGCOutcome :=
  let loop := fullGCLoop dr envs 0
  ([DBAction.lockGC, .logInfoRunningFullGC] ++ loop.1 ++
     (if loop.2.isSome then [DBAction.unlockGC] else []),
   loop.2)

/-- `true` exactly on a `compact` action. -/
def isCompact : DBAction → Bool
  | .compact _ => true
  | _ => false

/-- `true` exactly on a `triggerCleanupStart` action. -/
def isCleanupStart : DBAction → Bool
  | .triggerCleanupStart _ => true
  | _ => false

/-- `true` exactly on a `triggerCleanupFinish` action. -/
def isCleanupFinish : DBAction → Bool
  | .triggerCleanupFinish _ _ => true
  | _ => false

/-- `true` exactly on a `lockGC` action. -/
def isLockGC : DBAction → Bool
  | .lockGC => true
  | _ => false

/-- `true` exactly on an `unlockGC` action. -/
def isUnlockGC : DBAction → Bool
  | .unlockGC => true
  | _ => false

/-- `true` exactly on a `logWarnGCFailed` or `logWarnFullGCFailed`
action. -/
def isWarn : DBAction → Bool
  | .logWarnGCFailed _ _ => true
  | .logWarnFullGCFailed _ => true
  | _ => false

/-- Written from the spec's words for §4.3 "A pass", independently of the
code: record start time, publish a "cleanup starting" event, invoke the
engine's compaction primitive with the discard-ratio parameter, record
end time, publish a "cleanup finished" event with both times, then
trigger a runtime memory reclamation pass. Used to compare the code's
pass trace against the specified sequence. -/
def specCleanupPassTrace (dr : Option ℚ) (start endTime : Nat) : List DBAction :=
  [.recordStart start,
   .triggerCleanupStart start,
   .compact dr,
   .recordEnd endTime,
   .triggerCleanupFinish start endTime,
   .runtimeGC]

/-- A lock-relevant abstraction of one action: acquiring the GC lock,
releasing it, or anything else. -/
inductive LStep where
  | lock
  | unlock
  | work
  deriving DecidableEq, Repr

/-- The lock abstraction of a database action: only `lockGC` and
`unlockGC` touch `garbageCollectionLock`. -/
def stepOf : DBAction → LStep
  | .lockGC => .lock
  | .unlockGC => .unlock
  | _ => .work

/-- The lock-relevant program of a trace. -/
def progOf (t : List DBAction) : List LStep := t.map stepOf

/-- A program that takes the lock exactly once, as its first step, holds
it for its entire duration, and releases it as its last step. -/
def Bracketed (p : List LStep) : Prop :=
  ∃ body, p = LStep.lock :: body ++ [LStep.unlock] ∧ ∀ s ∈ body, s = LStep.work

/-- A state of two threads running lock-step programs over one shared
mutex: each thread's program counter, and which thread (if any) holds
the lock (`false` = thread one, `true` = thread two). -/
structure CState where
  pc1 : Nat
  pc2 : Nat
  holder : Option Bool
  deriving DecidableEq, Repr

/-- Interleaving semantics of two threads running programs `p1` and `p2`
over the single shared GC mutex: a `work` step always proceeds, a `lock`
step proceeds only when the lock is free and takes it, an `unlock` step
proceeds only for the holder and frees it. -/
inductive CStep (p1 p2 : List LStep) : CState → CState → Prop where
  | work1 (pc1 pc2 : Nat) (h : Option Bool) :
      p1[pc1]? = some .work → CStep p1 p2 ⟨pc1, pc2, h⟩ ⟨pc1 + 1, pc2, h⟩
  | lock1 (pc1 pc2 : Nat) :
      p1[pc1]? = some .lock →
      CStep p1 p2 ⟨pc1, pc2, none⟩ ⟨pc1 + 1, pc2, some false⟩
  | unlock1 (pc1 pc2 : Nat) :
      p1[pc1]? = some .unlock →
      CStep p1 p2 ⟨pc1, pc2, some false⟩ ⟨pc1 + 1, pc2, none⟩
  | work2 (pc1 pc2 : Nat) (h : Option Bool) :
      p2[pc2]? = some .work → CStep p1 p2 ⟨pc1, pc2, h⟩ ⟨pc1, pc2 + 1, h⟩
  | lock2 (pc1 pc2 : Nat) :
      p2[pc2]? = some .lock →
      CStep p1 p2 ⟨pc1, pc2, none⟩ ⟨pc1, pc2 + 1, some true⟩
  | unlock2 (pc1 pc2 : Nat) :
      p2[pc2]? = some .unlock →
      CStep p1 p2 ⟨pc1, pc2, some true⟩ ⟨pc1, pc2 + 1, none⟩

/-- The states reachable from both threads at their entry points with
the lock free. -/
def Reach (p1 p2 : List LStep) (s : CState) : Prop :=
  Relation.ReflTransGen (CStep p1 p2) ⟨0, 0, none⟩ s

/-- Thread with program `p` and counter `pc` is between its initial lock
acquisition and its final release (it holds the GC lock in a bracketed
program). -/
def inCritical (p : List LStep) (pc : Nat) : Prop :=
  0 < pc ∧ pc < p.length

end Database

/-- C1: `processValidMilestone` hits the fatal `log.Panicf` path exactly
when the marker's index is at most the solid index and strictly below the
pruning index; the panic diagnostic carries the index, the milestone
hash and the pruning floor; and the pruning index is never read when the
index is strictly beyond the solid index. -/
theorem c1_fatal_iff_below_solid_and_pruning
    (st : Tangle.TangleState) (b : Tangle.Bundle) (ok : Bool) :
    ((Tangle.processValidMilestone st b ok).panicked = true ↔
      b.milestoneIndex ≤ st.solidMilestoneIndex ∧
        b.milestoneIndex < st.pruningIndex) ∧
    (st.solidMilestoneIndex < b.milestoneIndex →
      Tangle.MAction.readPruningIndex ∉
        (Tangle.processValidMilestone st b ok).trace) ∧
    (b.milestoneIndex ≤ st.solidMilestoneIndex →
      b.milestoneIndex < st.pruningIndex →
      Tangle.MAction.panicSyncedTooFar b.milestoneIndex b.milestoneHash
          st.pruningIndex ∈ (Tangle.processValidMilestone st b ok).trace) := by
  simp only [Tangle.processValidMilestone]
  split_ifs with h1 h2 h3 h4 h5 h6 <;> simp_all

/-- Witness for C1 at the spec's concrete example: index 5, solid index
50, pruning index 10 panics (the pruning floor 10 appears in the
diagnostic), and index 100 beyond solid index 50 never reads the pruning
floor. -/
theorem c1_fatal_iff_below_solid_and_pruning_witness :
    ((Tangle.processValidMilestone ⟨60, 50, 10⟩ ⟨5, 77⟩ true).panicked = true) ∧
    (Tangle.MAction.panicSyncedTooFar 5 77 10 ∈
      (Tangle.processValidMilestone ⟨60, 50, 10⟩ ⟨5, 77⟩ true).trace) ∧
    (Tangle.MAction.readPruningIndex ∉
      (Tangle.processValidMilestone ⟨60, 50, 10⟩ ⟨100, 77⟩ true).trace) :=
  ⟨(c1_fatal_iff_below_solid_and_pruning ⟨60, 50, 10⟩ ⟨5, 77⟩ true).1.mpr
      (by decide),
   (c1_fatal_iff_below_solid_and_pruning ⟨60, 50, 10⟩ ⟨5, 77⟩ true).2.2
      (by decide) (by decide),
   (c1_fatal_iff_below_solid_and_pruning ⟨60, 50, 10⟩ ⟨100, 77⟩ true).2.1
      (by decide)⟩

/-- C6: `processValidMilestone` issues exactly one
`gossip.RequestMilestoneApprovees` call precisely when the marker's index
is strictly greater than the solid index; when the index is at most the
solid index but at least the pruning floor, the call neither panics nor
issues a request. -/
theorem c6_request_iff_beyond_solid
    (st : Tangle.TangleState) (b : Tangle.Bundle) (ok : Bool) :
    (((Tangle.processValidMilestone st b ok).trace.countP Tangle.isRequest) =
      if st.solidMilestoneIndex < b.milestoneIndex then 1 else 0) ∧
    (b.milestoneIndex ≤ st.solidMilestoneIndex →
      st.pruningIndex ≤ b.milestoneIndex →
      (Tangle.processValidMilestone st b ok).panicked = false ∧
        ((Tangle.processValidMilestone st b ok).trace.countP Tangle.isRequest)
          = 0) := by
  simp only [Tangle.processValidMilestone]
  split_ifs with h1 h2 h3 h4 h5 h6 <;>
    simp_all [List.countP_append, List.countP_cons, Tangle.isRequest]

/-- Witness for C6 at the spec's concrete examples: index 100 with solid
index 50 issues one request; index 20 with solid index 50 and pruning
index 10 neither panics nor requests. -/
theorem c6_request_iff_beyond_solid_witness :
    (((Tangle.processValidMilestone ⟨60, 50, 10⟩ ⟨100, 77⟩ true).trace.countP
        Tangle.isRequest) = 1) ∧
    ((Tangle.processValidMilestone ⟨60, 50, 10⟩ ⟨20, 77⟩ true).panicked = false ∧
      ((Tangle.processValidMilestone ⟨60, 50, 10⟩ ⟨20, 77⟩ true).trace.countP
        Tangle.isRequest) = 0) :=
  ⟨by
    have h := (c6_request_iff_beyond_solid ⟨60, 50, 10⟩ ⟨100, 77⟩ true).1
    simpa using h,
   (c6_request_iff_beyond_solid ⟨60, 50, 10⟩ ⟨20, 77⟩ true).2
      (by decide) (by decide)⟩

/-- C7: on every path through `processValidMilestone` — the fatal panic
path included — the function's ownership of the `CachedBundle` handle is
balanced: starting from the one owning reference consumed by the call,
the count never goes negative (no double free, every transfer covered by
a preceding retain) and ends at zero (no leak); the deferred
`cachedBndl.Release()` happens exactly once, as the last action, on every
path. -/
theorem c7_refcount_balanced
    (st : Tangle.TangleState) (b : Tangle.Bundle) (ok : Bool) :
    Tangle.balancedFrom 1 (Tangle.processValidMilestone st b ok).trace = true ∧
    ((Tangle.processValidMilestone st b ok).trace.countP Tangle.isRelease) = 1 ∧
    (Tangle.processValidMilestone st b ok).trace.getLast? =
      some Tangle.MAction.releaseBundle := by
  simp only [Tangle.processValidMilestone]
  split_ifs <;>
    simp_all [Tangle.balancedFrom, Tangle.refDelta, List.countP_append,
      List.countP_cons, Tangle.isRelease, List.getLast?]

/-- C3 counterexample: with persistence failing on a marker beyond the
latest index, the code still publishes the "latest milestone changed"
event (line 29 of the processor runs unconditionally inside the
`latestMilestoneIndex < bundleMsIndex` block), so the event is not
published only on persistence success. -/
theorem c3_changed_event_on_failed_persist_cex :
    Tangle.MAction.logError ∈
      (Tangle.processValidMilestone ⟨60, 50, 10⟩ ⟨100, 77⟩ false).trace ∧
    Tangle.MAction.triggerLatestMilestoneChanged ⟨100, 77⟩ ∈
      (Tangle.processValidMilestone ⟨60, 50, 10⟩ ⟨100, 77⟩ false).trace := by
  decide

/-- C3 as amended: a persistence failure is logged and non-fatal (the
call continues — the solidification task is still submitted — and
whether the call panics does not depend on the persistence result, and
the in-memory latest pointer is not advanced), but the "latest milestone
changed" event is published whenever the index is beyond the latest
index, on the failure path as well as on success. -/
theorem c3_persist_failure_nonfatal_event_unconditional
    (st : Tangle.TangleState) (b : Tangle.Bundle) :
    ((Tangle.processValidMilestone st b false).panicked =
      (Tangle.processValidMilestone st b true).panicked) ∧
    (st.latestMilestoneIndex < b.milestoneIndex →
      Tangle.MAction.logError ∈
          (Tangle.processValidMilestone st b false).trace ∧
        Tangle.MAction.submitSolidificationTask b.milestoneIndex ∈
          (Tangle.processValidMilestone st b false).trace ∧
        (Tangle.processValidMilestone st b false).state = st) ∧
    (∀ ok, Tangle.MAction.triggerLatestMilestoneChanged b ∈
        (Tangle.processValidMilestone st b ok).trace ↔
      st.latestMilestoneIndex < b.milestoneIndex) := by
  simp only [Tangle.processValidMilestone, Tangle.SetLatestMilestone]
  split_ifs <;> simp_all

/-- Witness for the amended C3 at a concrete failing persist: index 100,
latest 60. -/
theorem c3_persist_failure_nonfatal_event_unconditional_witness :
    (Tangle.MAction.logError ∈
        (Tangle.processValidMilestone ⟨60, 50, 10⟩ ⟨100, 77⟩ false).trace ∧
      Tangle.MAction.submitSolidificationTask 100 ∈
        (Tangle.processValidMilestone ⟨60, 50, 10⟩ ⟨100, 77⟩ false).trace ∧
      (Tangle.processValidMilestone ⟨60, 50, 10⟩ ⟨100, 77⟩ false).state =
        ⟨60, 50, 10⟩) ∧
    (Tangle.MAction.triggerLatestMilestoneChanged ⟨100, 77⟩ ∈
      (Tangle.processValidMilestone ⟨60, 50, 10⟩ ⟨100, 77⟩ false).trace) :=
  ⟨(c3_persist_failure_nonfatal_event_unconditional ⟨60, 50, 10⟩ ⟨100, 77⟩).2.1
      (by decide),
   ((c3_persist_failure_nonfatal_event_unconditional ⟨60, 50, 10⟩
        ⟨100, 77⟩).2.2 false).mpr (by decide)⟩

/-- C9: one compaction pass performs, in order: record start time,
publish the cleanup-started event with the start time, invoke the
engine's compaction primitive with the given discard ratio (passed
through unchanged, `none` meaning the engine default), record end time,
publish the cleanup-finished event with both times, trigger the runtime
memory-reclamation pass — exactly the sequence the spec prescribes — and
it returns the duration end minus start. -/
theorem c9_pass_sequence (dr : Option ℚ) (env : Database.PassEnv) :
    (Database.runGarbageCollectionWithoutLocking dr env).2 =
      Database.specCleanupPassTrace dr env.start env.endTime ∧
    (Database.runGarbageCollectionWithoutLocking dr env).1.1 =
      env.endTime - env.start :=
  ⟨rfl, rfl⟩

/-- C10: one compaction pass publishes exactly one cleanup-started and
one cleanup-finished event (the finished one carrying both times) and
triggers the runtime memory-reclamation pass, and its trace does not
depend on the engine's error result at all — the events fire even when
the compaction primitive fails. -/
theorem c10_finish_event_unconditional (dr : Option ℚ)
    (env : Database.PassEnv) :
    ((Database.runGarbageCollectionWithoutLocking dr env).2.countP
      Database.isCleanupStart) = 1 ∧
    ((Database.runGarbageCollectionWithoutLocking dr env).2.countP
      Database.isCleanupFinish) = 1 ∧
    Database.DBAction.triggerCleanupFinish env.start env.endTime ∈
      (Database.runGarbageCollectionWithoutLocking dr env).2 ∧
    Database.DBAction.runtimeGC ∈
      (Database.runGarbageCollectionWithoutLocking dr env).2 ∧
    (∀ e, (Database.runGarbageCollectionWithoutLocking dr
        ⟨env.start, env.endTime, e⟩).2 =
      (Database.runGarbageCollectionWithoutLocking dr env).2) := by
  simp [Database.runGarbageCollectionWithoutLocking, List.countP_cons,
    Database.isCleanupStart, Database.isCleanupFinish]

/-- C8: `RunGarbageCollection` invokes the engine's compaction exactly
once per call (no retry on any outcome); a `badger.ErrNoRewrite` result
is logged as a successful pass with nothing to clean up and no warning
is emitted, while any other error is logged as a warning. -/
theorem c8_single_gc_error_handling (env : Database.PassEnv) :
    ((Database.RunGarbageCollection env).countP Database.isCompact) = 1 ∧
    (env.err = some .noRewrite →
      Database.DBAction.logInfoFinishedNothing (env.endTime - env.start) ∈
          Database.RunGarbageCollection env ∧
        ((Database.RunGarbageCollection env).countP Database.isWarn) = 0) ∧
    (∀ c, env.err = some (.other c) →
      Database.DBAction.logWarnGCFailed c (env.endTime - env.start) ∈
        Database.RunGarbageCollection env) := by
  obtain ⟨s, t, e⟩ := env
  rcases e with _ | e
  · simp [Database.RunGarbageCollection,
      Database.runGarbageCollectionWithoutLocking, List.countP_cons,
      Database.isCompact, Database.isWarn]
  · rcases e with _ | c <;>
      simp [Database.RunGarbageCollection,
        Database.runGarbageCollectionWithoutLocking, List.countP_cons,
        Database.isCompact, Database.isWarn]

/-- Witness for C8 at concrete passes: a `noRewrite` pass logs the
nothing-to-clean-up message with no warning, and an `other` failure logs
the warning; both invoke the engine once. -/
theorem c8_single_gc_error_handling_witness :
    ((Database.RunGarbageCollection ⟨3, 9, some .noRewrite⟩).countP
      Database.isCompact) = 1 ∧
    (Database.DBAction.logInfoFinishedNothing 6 ∈
        Database.RunGarbageCollection ⟨3, 9, some .noRewrite⟩ ∧
      ((Database.RunGarbageCollection ⟨3, 9, some .noRewrite⟩).countP
        Database.isWarn) = 0) ∧
    Database.DBAction.logWarnGCFailed 7 6 ∈
      Database.RunGarbageCollection ⟨3, 9, some (.other 7)⟩ :=
  ⟨(c8_single_gc_error_handling ⟨3, 9, some .noRewrite⟩).1,
   (c8_single_gc_error_handling ⟨3, 9, some .noRewrite⟩).2.1 (by decide),
   (c8_single_gc_error_handling ⟨3, 9, some (.other 7)⟩).2.2 7 (by decide)⟩


/-- Unfolding lemma: one successful pass at the head of the full-GC
loop. -/
theorem fullGCLoop_cons_none (dr : Option ℚ) (e : Database.PassEnv)
    (rest : List Database.PassEnv) (c : Nat) (he : e.err = none) :
    Database.fullGCLoop dr (e :: rest) c =
      ((Database.runGarbageCollectionWithoutLocking dr e).2 ++
        (Database.fullGCLoop dr rest (c + 1)).1,
       (Database.fullGCLoop dr rest (c + 1)).2) := by
  simp [Database.fullGCLoop, Database.runGarbageCollectionWithoutLocking, he]

/-- Unfolding lemma: a `noRewrite` pass at the head of the full-GC loop
ends the loop, reporting the pass count accumulated so far. -/
theorem fullGCLoop_cons_noRewrite (dr : Option ℚ) (e : Database.PassEnv)
    (rest : List Database.PassEnv) (c : Nat)
    (he : e.err = some .noRewrite) :
    Database.fullGCLoop dr (e :: rest) c =
      ((Database.runGarbageCollectionWithoutLocking dr e).2 ++
        [Database.DBAction.logInfoFullFinished c],
       some (.finished c)) := by
  simp [Database.fullGCLoop, Database.runGarbageCollectionWithoutLocking, he]

/-- Unfolding lemma: any other failing pass at the head of the full-GC
loop aborts it with a warning. -/
theorem fullGCLoop_cons_other (dr : Option ℚ) (e : Database.PassEnv)
    (rest : List Database.PassEnv) (c code : Nat)
    (he : e.err = some (.other code)) :
    Database.fullGCLoop dr (e :: rest) c =
      ((Database.runGarbageCollectionWithoutLocking dr e).2 ++
        [Database.DBAction.logWarnFullGCFailed code],
       some (.aborted code)) := by
  simp [Database.fullGCLoop, Database.runGarbageCollectionWithoutLocking, he]

/-- One pass trace invokes the engine's compaction exactly once. -/
theorem pass_countP_compact (dr : Option ℚ) (e : Database.PassEnv) :
    ((Database.runGarbageCollectionWithoutLocking dr e).2.countP
      Database.isCompact) = 1 := by
  simp [Database.runGarbageCollectionWithoutLocking, List.countP_cons,
    Database.isCompact]

/-- Helper: the full-GC loop consumes a prefix of passes on which the
engine keeps succeeding without stopping: the outcome is decided by the
remaining passes, the number of engine invocations grows by the prefix
length, and every action of the remaining run appears in the whole run's
trace. -/
theorem fullGCLoop_success_prefix (dr : Option ℚ)
    (pre l : List Database.PassEnv) (hpre : ∀ e ∈ pre, e.err = none)
    (c : Nat) :
    (Database.fullGCLoop dr (pre ++ l) c).2 =
        (Database.fullGCLoop dr l (c + pre.length)).2 ∧
      ((Database.fullGCLoop dr (pre ++ l) c).1.countP Database.isCompact) =
        pre.length +
          ((Database.fullGCLoop dr l (c + pre.length)).1.countP
            Database.isCompact) ∧
      ∀ a ∈ (Database.fullGCLoop dr l (c + pre.length)).1,
        a ∈ (Database.fullGCLoop dr (pre ++ l) c).1 := by
  induction pre generalizing c with
  | nil => simp
  | cons e pre ih =>
    have he : e.err = none := hpre e (List.mem_cons_self _ _)
    have hpre' : ∀ x ∈ pre, x.err = none := fun x hx =>
      hpre x (List.mem_cons_of_mem _ hx)
    have ih' := ih hpre' (c + 1)
    have harith : c + 1 + pre.length = c + (pre.length + 1) := by omega
    rw [harith] at ih'
    rw [List.cons_append, fullGCLoop_cons_none dr e (pre ++ l) c he]
    refine ⟨ih'.1, ?_, ?_⟩
    · simp only [List.countP_append, ih'.2.1, pass_countP_compact,
        List.length_cons]
      omega
    · intro a ha
      exact List.mem_append_right _ (ih'.2.2 a ha)

/-- C4: `RunFullGarbageCollection` stops at the first pass on which the
engine stops succeeding. If, after a run of successful passes, a pass
reports `badger.ErrNoRewrite` ("nothing to compact"), the loop ends
there — later passes are never invoked — and the reported pass count is
exactly the number of successful passes, the terminating pass not
counted; any other failure aborts the loop there after logging a
warning, that pass likewise not counted among the successes. The total
number of engine invocations is the successes plus the one stopping
pass. -/
theorem c4_full_gc_terminates_and_counts (dr : Option ℚ)
    (pre : List Database.PassEnv) (env : Database.PassEnv)
    (rest : List Database.PassEnv)
    (hpre : ∀ e ∈ pre, e.err = none) :
    (env.err = some .noRewrite →
      (Database.RunFullGarbageCollection dr (pre ++ env :: rest)).2 =
          some (.finished pre.length) ∧
        ((Database.RunFullGarbageCollection dr (pre ++ env :: rest)).1.countP
          Database.isCompact) = pre.length + 1) ∧
    (∀ c, env.err = some (.other c) →
      (Database.RunFullGarbageCollection dr (pre ++ env :: rest)).2 =
          some (.aborted c) ∧
        Database.DBAction.logWarnFullGCFailed c ∈
          (Database.RunFullGarbageCollection dr (pre ++ env :: rest)).1 ∧
        ((Database.RunFullGarbageCollection dr (pre ++ env :: rest)).1.countP
          Database.isCompact) = pre.length + 1) := by
  have h := fullGCLoop_success_prefix dr pre (env :: rest) hpre 0
  constructor
  · intro he
    have hstep := fullGCLoop_cons_noRewrite dr env rest (0 + pre.length) he
    have houtcome : (Database.fullGCLoop dr (pre ++ env :: rest) 0).2 =
        some (Database.FullGCOutcome.finished pre.length) := by
      rw [h.1, hstep]
      simp
    have hcount : ((Database.fullGCLoop dr (pre ++ env :: rest) 0).1.countP
        Database.isCompact) = pre.length + 1 := by
      rw [h.2.1, hstep]
      simp [List.countP_append, pass_countP_compact, List.countP_cons,
        Database.isCompact]
    constructor
    · simp [Database.RunFullGarbageCollection, houtcome]
    · simp [Database.RunFullGarbageCollection, houtcome, List.countP_append,
        List.countP_cons, Database.isCompact, hcount]
  · intro c he
    have hstep := fullGCLoop_cons_other dr env rest (0 + pre.length) c he
    have houtcome : (Database.fullGCLoop dr (pre ++ env :: rest) 0).2 =
        some (Database.FullGCOutcome.aborted c) := by
      rw [h.1, hstep]
    have hcount : ((Database.fullGCLoop dr (pre ++ env :: rest) 0).1.countP
        Database.isCompact) = pre.length + 1 := by
      rw [h.2.1, hstep]
      simp [List.countP_append, pass_countP_compact, List.countP_cons,
        Database.isCompact]
    have hmem : Database.DBAction.logWarnFullGCFailed c ∈
        (Database.fullGCLoop dr (pre ++ env :: rest) 0).1 := by
      refine h.2.2 _ ?_
      rw [hstep]
      simp
    refine ⟨?_, ?_, ?_⟩
    · simp [Database.RunFullGarbageCollection, houtcome]
    · simp [Database.RunFullGarbageCollection, houtcome, hmem]
    · simp [Database.RunFullGarbageCollection, houtcome, List.countP_append,
        List.countP_cons, Database.isCompact, hcount]

/-- Witness for C4: two successful passes followed by a `noRewrite` pass
finish with count 2 and three engine invocations even though a fourth
pass environment is available; one successful pass followed by an
`other` failure aborts with the warning logged and two invocations. -/
theorem c4_full_gc_terminates_and_counts_witness :
    ((Database.RunFullGarbageCollection none
        ([⟨0, 1, none⟩, ⟨1, 2, none⟩] ++ ⟨2, 3, some .noRewrite⟩ ::
          [⟨9, 9, none⟩])).2 = some (.finished 2) ∧
      ((Database.RunFullGarbageCollection none
          ([⟨0, 1, none⟩, ⟨1, 2, none⟩] ++ ⟨2, 3, some .noRewrite⟩ ::
            [⟨9, 9, none⟩])).1.countP Database.isCompact) = 3) ∧
    ((Database.RunFullGarbageCollection none
        ([⟨0, 1, none⟩] ++ ⟨1, 2, some (.other 7)⟩ :: [])).2 =
          some (.aborted 7) ∧
      Database.DBAction.logWarnFullGCFailed 7 ∈
        (Database.RunFullGarbageCollection none
          ([⟨0, 1, none⟩] ++ ⟨1, 2, some (.other 7)⟩ :: [])).1 ∧
      ((Database.RunFullGarbageCollection none
          ([⟨0, 1, none⟩] ++ ⟨1, 2, some (.other 7)⟩ :: [])).1.countP
        Database.isCompact) = 2) :=
  ⟨(c4_full_gc_terminates_and_counts none [⟨0, 1, none⟩, ⟨1, 2, none⟩]
        ⟨2, 3, some .noRewrite⟩ [⟨9, 9, none⟩] (by decide)).1 (by decide),
   (c4_full_gc_terminates_and_counts none [⟨0, 1, none⟩]
        ⟨1, 2, some (.other 7)⟩ [] (by decide)).2 7 (by decide)⟩

/-- Helper: folding `max` from any seed equals the `max` of the seed and
the fold from zero. -/
theorem foldl_max_shift (l : List Nat) :
    ∀ a : Nat, l.foldl max a = max a (l.foldl max 0) := by
  induction l with
  | nil => intro a; simp
  | cons x l ih =>
    intro a
    simp only [List.foldl_cons]
    rw [ih (max a x), ih (max 0 x)]
    omega

/-- Helper: every member of a list is at most the fold of `max` over it. -/
theorem le_foldl_max (l : List Nat) (x : Nat) (hx : x ∈ l) :
    x ≤ l.foldl max 0 := by
  induction l with
  | nil => cases hx
  | cons a l ih =>
    simp only [List.foldl_cons]
    rw [foldl_max_shift]
    rcases List.mem_cons.mp hx with h | h
    · omega
    · have := ih h
      omega

/-- Helper: counting the distinct indices above a threshold when the
head of an index list is a lower bound for its tail. -/
theorem card_filter_cons_max (L idx : Nat) (S : List Nat)
    (hle : ∀ y ∈ S, idx ≤ y) :
    ((idx :: S).toFinset.filter (fun i => L < i)).card =
      (if L < idx then 1 else 0) +
        ((S.toFinset.filter (fun i => max L idx < i)).card) := by
  rcases Nat.lt_or_ge L idx with h | h
  · have hmax : max L idx = idx := by omega
    rw [hmax, if_pos h]
    have hset : (idx :: S).toFinset.filter (fun i => L < i) =
        insert idx (S.toFinset.filter (fun i => idx < i)) := by
      ext y
      simp only [List.toFinset_cons, Finset.mem_filter, Finset.mem_insert,
        List.mem_toFinset]
      constructor
      · rintro ⟨hy | hy, hL⟩
        · exact Or.inl hy
        · have hxy := hle y hy
          rcases Nat.eq_or_lt_of_le hxy with heq | hlt
          · exact Or.inl heq.symm
          · exact Or.inr ⟨hy, hlt⟩
      · rintro (rfl | ⟨hy, hlt⟩)
        · exact ⟨Or.inl rfl, h⟩
        · exact ⟨Or.inr hy, by omega⟩
    rw [hset, Finset.card_insert_of_not_mem]
    · omega
    · simp
  · have hmax : max L idx = L := by omega
    rw [hmax, if_neg (by omega)]
    have hset : (idx :: S).toFinset.filter (fun i => L < i) =
        S.toFinset.filter (fun i => L < i) := by
      ext y
      simp only [List.toFinset_cons, Finset.mem_filter, Finset.mem_insert,
        List.mem_toFinset]
      constructor
      · rintro ⟨hy | hy, hL⟩
        · subst hy; omega
        · exact ⟨hy, hL⟩
      · rintro ⟨hy, hL⟩
        exact ⟨Or.inr hy, hL⟩
    rw [hset]
    omega

/-- Helper: facts about one `processValidMilestone` call with
persistence succeeding: the latest pointer becomes the max of the old
value and the marker's index, the solid and pruning indices are
untouched, persistence runs exactly when the index is beyond the old
latest, and the call cannot panic at or above the pruning floor. -/
theorem processValidMilestone_step (st : Tangle.TangleState)
    (b : Tangle.Bundle) :
    (Tangle.processValidMilestone st b true).state.latestMilestoneIndex =
        max st.latestMilestoneIndex b.milestoneIndex ∧
      (Tangle.processValidMilestone st b true).state.solidMilestoneIndex =
        st.solidMilestoneIndex ∧
      (Tangle.processValidMilestone st b true).state.pruningIndex =
        st.pruningIndex ∧
      ((Tangle.processValidMilestone st b true).trace.countP
          Tangle.isSetLatest) =
        (if st.latestMilestoneIndex < b.milestoneIndex then 1 else 0) ∧
      (st.pruningIndex ≤ b.milestoneIndex →
        (Tangle.processValidMilestone st b true).panicked = false) := by
  simp only [Tangle.processValidMilestone, Tangle.SetLatestMilestone]
  split_ifs <;>
    simp_all [List.countP_append, List.countP_cons, Tangle.isSetLatest] <;>
    omega

/-- Helper: processing a sorted run of markers (persistence succeeding,
all indices at or above the pruning floor) leaves the latest pointer at
the `max`-fold of the indices over its initial value, keeps solid and
pruning indices unchanged, and invokes `SetLatestMilestone` once per
distinct index beyond the initial latest value. -/
theorem processSeq_facts (bs : List Tangle.Bundle) :
    ∀ st : Tangle.TangleState,
      (bs.map Tangle.Bundle.milestoneIndex).Sorted (· ≤ ·) →
      (∀ b ∈ bs, st.pruningIndex ≤ b.milestoneIndex) →
      (Tangle.processSeq st bs).1.latestMilestoneIndex =
          (bs.map Tangle.Bundle.milestoneIndex).foldl max
            st.latestMilestoneIndex ∧
        ((Tangle.processSeq st bs).2.1.countP Tangle.isSetLatest) =
          ((bs.map Tangle.Bundle.milestoneIndex).toFinset.filter
            (fun i => st.latestMilestoneIndex < i)).card := by
  induction bs with
  | nil => intro st _ _; simp [Tangle.processSeq]
  | cons b rest ih =>
    intro st hsort hpr
    have hsort' : (rest.map Tangle.Bundle.milestoneIndex).Sorted (· ≤ ·) :=
      (List.sorted_cons.mp hsort).2
    have hhd : ∀ y ∈ rest.map Tangle.Bundle.milestoneIndex,
        b.milestoneIndex ≤ y := (List.sorted_cons.mp hsort).1
    have hstep := processValidMilestone_step st b
    have hnopanic : (Tangle.processValidMilestone st b true).panicked =
        false := hstep.2.2.2.2 (hpr b (List.mem_cons_self _ _))
    have hpr' : ∀ b' ∈ rest,
        (Tangle.processValidMilestone st b true).state.pruningIndex ≤
          b'.milestoneIndex := by
      intro b' hb'
      rw [hstep.2.2.1]
      exact hpr b' (List.mem_cons_of_mem _ hb')
    have ihr := ih (Tangle.processValidMilestone st b true).state hsort' hpr'
    simp only [Tangle.processSeq, hnopanic, if_neg Bool.false_ne_true]
    constructor
    · simp only [List.map_cons, List.foldl_cons]
      rw [ihr.1, hstep.1]
    · simp only [List.map_cons, List.countP_append, ihr.2, hstep.2.2.2.1]
      rw [card_filter_cons_max st.latestMilestoneIndex b.milestoneIndex
        (rest.map Tangle.Bundle.milestoneIndex) hhd]
      rw [hstep.1]

/-- C2: for every sequence of markers processed in non-decreasing index
order (persistence succeeding, no marker below the pruning floor), the
latest pointer afterwards is the running maximum of the indices over its
initial value — equal to the maximum index seen whenever the sequence is
nonempty and starts at or beyond the initial latest — and
`SetLatestMilestone` runs exactly once per distinct index beyond the
initial latest; a single marker whose index is not strictly greater than
the current latest never re-persists or re-advances it. -/
theorem c2_latest_tracks_max_and_persist_once :
    (∀ (st : Tangle.TangleState) (bs : List Tangle.Bundle),
      (bs.map Tangle.Bundle.milestoneIndex).Sorted (· ≤ ·) →
      (∀ b ∈ bs, st.pruningIndex ≤ b.milestoneIndex) →
      (Tangle.processSeq st bs).1.latestMilestoneIndex =
          (bs.map Tangle.Bundle.milestoneIndex).foldl max
            st.latestMilestoneIndex ∧
        ((Tangle.processSeq st bs).2.1.countP Tangle.isSetLatest) =
          ((bs.map Tangle.Bundle.milestoneIndex).toFinset.filter
            (fun i => st.latestMilestoneIndex < i)).card ∧
        ((∀ b ∈ bs, st.latestMilestoneIndex ≤ b.milestoneIndex) →
          bs ≠ [] →
          (Tangle.processSeq st bs).1.latestMilestoneIndex =
            (bs.map Tangle.Bundle.milestoneIndex).foldl max 0)) ∧
    (∀ (st : Tangle.TangleState) (b : Tangle.Bundle) (ok : Bool),
      b.milestoneIndex ≤ st.latestMilestoneIndex →
      ((Tangle.processValidMilestone st b ok).trace.countP
          Tangle.isSetLatest) = 0 ∧
        (Tangle.processValidMilestone st b ok).state = st) := by
  constructor
  · intro st bs hsort hpr
    have h := processSeq_facts bs st hsort hpr
    refine ⟨h.1, h.2, ?_⟩
    intro hge hne
    rcases bs with _ | ⟨b, rest⟩
    · exact absurd rfl hne
    · rw [h.1, foldl_max_shift]
      have h1 : st.latestMilestoneIndex ≤ b.milestoneIndex :=
        hge b (List.mem_cons_self _ _)
      have h2 : b.milestoneIndex ≤
          (((b :: rest).map Tangle.Bundle.milestoneIndex).foldl max 0) :=
        le_foldl_max _ _ (by simp)
      omega
  · intro st b ok hle
    have hnl : ¬ st.latestMilestoneIndex < b.milestoneIndex := by omega
    simp only [Tangle.processValidMilestone, if_neg hnl]
    split_ifs <;>
      simp_all [List.countP_append, List.countP_cons, Tangle.isSetLatest]

/-- Witness for C2 on the sorted sequence of indices 15, 15, 30 from
initial latest 0: the latest pointer ends at the maximum seen (30) and
persistence ran twice (once per distinct index), and a single marker at
index 20 against latest 60 does not persist. -/
theorem c2_latest_tracks_max_and_persist_once_witness :
    (Tangle.processSeq ⟨0, 50, 10⟩
        [⟨15, 1⟩, ⟨15, 2⟩, ⟨30, 3⟩]).1.latestMilestoneIndex = 30 ∧
    ((Tangle.processSeq ⟨0, 50, 10⟩
        [⟨15, 1⟩, ⟨15, 2⟩, ⟨30, 3⟩]).2.1.countP Tangle.isSetLatest) = 2 ∧
    ((Tangle.processValidMilestone ⟨60, 50, 10⟩ ⟨20, 78⟩ true).trace.countP
        Tangle.isSetLatest) = 0 := by
  have h1 := c2_latest_tracks_max_and_persist_once.1 ⟨0, 50, 10⟩
    [⟨15, 1⟩, ⟨15, 2⟩, ⟨30, 3⟩] (by decide) (by decide)
  have h2 := c2_latest_tracks_max_and_persist_once.2 ⟨60, 50, 10⟩ ⟨20, 78⟩
    true (by decide)
  refine ⟨?_, ?_, h2.1⟩
  · rw [h1.2.2 (by decide) (by decide)]
    decide
  · rw [h1.2.1]
    decide

/-- Helper: the instruction table of a bracketed program — lock at
position zero, work throughout the body, unlock at the last position. -/
theorem bracketed_getElem (body : List Database.LStep)
    (hbody : ∀ s ∈ body, s = Database.LStep.work) (i : Nat) :
    (Database.LStep.lock :: body ++ [Database.LStep.unlock])[i]? =
      if i = 0 then some Database.LStep.lock
      else if i < body.length + 1 then some Database.LStep.work
      else if i = body.length + 1 then some Database.LStep.unlock
      else none := by
  rw [List.cons_append]
  rcases i with _ | j
  · simp
  · simp only [List.getElem?_cons_succ, Nat.succ_ne_zero, if_false]
    rcases Nat.lt_trichotomy j body.length with hj | hj | hj
    · rw [List.getElem?_append_left hj, List.getElem?_eq_getElem hj,
        hbody _ (List.getElem_mem hj)]
      rw [if_pos (by omega)]
    · subst hj
      rw [List.getElem?_append_right (Nat.le_refl _)]
      simp
    · rw [List.getElem?_append_right (by omega)]
      have h1 : ¬ j + 1 < body.length + 1 := by omega
      have h2 : ¬ j + 1 = body.length + 1 := by omega
      rw [if_neg h1, if_neg h2]
      have : j - body.length = (j - body.length - 1) + 1 := by omega
      rw [this]
      simp

/-- Helper: a lock instruction sits only at position zero of a bracketed
program. -/
theorem bracketed_lock_pos (body : List Database.LStep)
    (hbody : ∀ s ∈ body, s = Database.LStep.work) (i : Nat)
    (h : (Database.LStep.lock :: body ++ [Database.LStep.unlock])[i]? =
      some Database.LStep.lock) : i = 0 := by
  rw [bracketed_getElem body hbody] at h
  split_ifs at h <;> simp_all

/-- Helper: an unlock instruction sits only at the last position of a
bracketed program. -/
theorem bracketed_unlock_pos (body : List Database.LStep)
    (hbody : ∀ s ∈ body, s = Database.LStep.work) (i : Nat)
    (h : (Database.LStep.lock :: body ++ [Database.LStep.unlock])[i]? =
      some Database.LStep.unlock) : i = body.length + 1 := by
  rw [bracketed_getElem body hbody] at h
  split_ifs at h <;> simp_all

/-- Helper: a work instruction sits strictly inside a bracketed
program. -/
theorem bracketed_work_bounds (body : List Database.LStep)
    (hbody : ∀ s ∈ body, s = Database.LStep.work) (i : Nat)
    (h : (Database.LStep.lock :: body ++ [Database.LStep.unlock])[i]? =
      some Database.LStep.work) : 0 < i ∧ i < body.length + 1 := by
  rw [bracketed_getElem body hbody] at h
  split_ifs at h <;> simp_all
  omega

/-- Helper: in every reachable state of two bracketed programs
interleaved over the GC lock, a thread holds the lock exactly when its
program counter is strictly between its lock and unlock steps. -/
theorem reach_lock_inv (body1 body2 : List Database.LStep)
    (h1 : ∀ s ∈ body1, s = Database.LStep.work)
    (h2 : ∀ s ∈ body2, s = Database.LStep.work)
    (s : Database.CState)
    (hs : Database.Reach
      (Database.LStep.lock :: body1 ++ [Database.LStep.unlock])
      (Database.LStep.lock :: body2 ++ [Database.LStep.unlock]) s) :
    (s.holder = some false ↔
      Database.inCritical
        (Database.LStep.lock :: body1 ++ [Database.LStep.unlock]) s.pc1) ∧
    (s.holder = some true ↔
      Database.inCritical
        (Database.LStep.lock :: body2 ++ [Database.LStep.unlock]) s.pc2) := by
  have hlen1 :
      (Database.LStep.lock :: body1 ++ [Database.LStep.unlock]).length =
        body1.length + 2 := by simp
  have hlen2 :
      (Database.LStep.lock :: body2 ++ [Database.LStep.unlock]).length =
        body2.length + 2 := by simp
  unfold Database.Reach at hs
  induction hs with
  | refl => simp [Database.inCritical]
  | tail hst hstep ih =>
    cases hstep with
    | work1 pc1 pc2 h hget =>
      have hb := bracketed_work_bounds body1 h1 pc1 hget
      refine ⟨?_, ih.2⟩
      rw [ih.1]
      simp only [Database.inCritical, hlen1]
      omega
    | lock1 pc1 pc2 hget =>
      have hpc := bracketed_lock_pos body1 h1 pc1 hget
      subst hpc
      have hcrit2 : ¬ Database.inCritical
          (Database.LStep.lock :: body2 ++ [Database.LStep.unlock]) pc2 := by
        rw [← ih.2]
        simp
      refine ⟨iff_of_true rfl ?_, iff_of_false (by simp) hcrit2⟩
      simp only [Database.inCritical, hlen1]
      omega
    | unlock1 pc1 pc2 hget =>
      have hpc := bracketed_unlock_pos body1 h1 pc1 hget
      subst hpc
      have hcrit2 : ¬ Database.inCritical
          (Database.LStep.lock :: body2 ++ [Database.LStep.unlock]) pc2 := by
        rw [← ih.2]
        simp
      refine ⟨iff_of_false (by simp) ?_, iff_of_false (by simp) hcrit2⟩
      simp only [Database.inCritical, hlen1]
      omega
    | work2 pc1 pc2 h hget =>
      have hb := bracketed_work_bounds body2 h2 pc2 hget
      refine ⟨ih.1, ?_⟩
      rw [ih.2]
      simp only [Database.inCritical, hlen2]
      omega
    | lock2 pc1 pc2 hget =>
      have hpc := bracketed_lock_pos body2 h2 pc2 hget
      subst hpc
      have hcrit1 : ¬ Database.inCritical
          (Database.LStep.lock :: body1 ++ [Database.LStep.unlock]) pc1 := by
        rw [← ih.1]
        simp
      refine ⟨iff_of_false (by simp) hcrit1, iff_of_true rfl ?_⟩
      simp only [Database.inCritical, hlen2]
      omega
    | unlock2 pc1 pc2 hget =>
      have hpc := bracketed_unlock_pos body2 h2 pc2 hget
      subst hpc
      have hcrit1 : ¬ Database.inCritical
          (Database.LStep.lock :: body1 ++ [Database.LStep.unlock]) pc1 := by
        rw [← ih.1]
        simp
      refine ⟨iff_of_false (by simp) hcrit1, iff_of_false (by simp) ?_⟩
      simp only [Database.inCritical, hlen2]
      omega

/-- Helper: two bracketed programs interleaved over the one GC lock are
never simultaneously inside their critical sections. -/
theorem reach_mutex (p1 p2 : List Database.LStep)
    (hb1 : Database.Bracketed p1) (hb2 : Database.Bracketed p2)
    (s : Database.CState) (hs : Database.Reach p1 p2 s) :
    ¬(Database.inCritical p1 s.pc1 ∧ Database.inCritical p2 s.pc2) := by
  obtain ⟨body1, rfl, h1⟩ := hb1
  obtain ⟨body2, rfl, h2⟩ := hb2
  have hinv := reach_lock_inv body1 body2 h1 h2 s hs
  rintro ⟨hc1, hc2⟩
  have e1 := hinv.1.mpr hc1
  have e2 := hinv.2.mpr hc2
  rw [e1] at e2
  simp at e2

/-- Helper: the full-GC loop never touches the GC lock inside its
passes. -/
theorem fullGCLoop_no_lock (dr : Option ℚ) (envs : List Database.PassEnv) :
    ∀ (c : Nat), ∀ a ∈ (Database.fullGCLoop dr envs c).1,
      Database.stepOf a = Database.LStep.work := by
  induction envs with
  | nil =>
    intro c a ha
    simp [Database.fullGCLoop] at ha
  | cons e rest ih =>
    intro c a ha
    rcases he : e.err with _ | err
    · rw [fullGCLoop_cons_none dr e rest c he] at ha
      rcases List.mem_append.mp ha with ha | ha
      · simp [Database.runGarbageCollectionWithoutLocking] at ha
        rcases ha with rfl | rfl | rfl | rfl | rfl | rfl <;> rfl
      · exact ih (c + 1) a ha
    · rcases err with _ | code
      · rw [fullGCLoop_cons_noRewrite dr e rest c he] at ha
        simp [Database.runGarbageCollectionWithoutLocking] at ha
        rcases ha with rfl | rfl | rfl | rfl | rfl | rfl | rfl <;> rfl
      · rw [fullGCLoop_cons_other dr e rest c code he] at ha
        simp [Database.runGarbageCollectionWithoutLocking] at ha
        rcases ha with rfl | rfl | rfl | rfl | rfl | rfl | rfl <;> rfl

/-- Helper: `RunGarbageCollection` is bracketed: it takes the GC lock as
its first action, holds it throughout, and releases it as its last
action. -/
theorem runGC_bracketed (env : Database.PassEnv) :
    Database.Bracketed (Database.progOf (Database.RunGarbageCollection env)) := by
  obtain ⟨s, t, e⟩ := env
  rcases e with _ | e
  · exact ⟨List.replicate 8 Database.LStep.work, rfl, by decide⟩
  · rcases e with _ | c <;>
      exact ⟨List.replicate 8 Database.LStep.work, rfl, by decide⟩

/-- Helper: a terminating `RunFullGarbageCollection` is bracketed: one
lock acquisition at the start, held across all passes, one release at
the end. -/
theorem runFullGC_bracketed (dr : Option ℚ) (envs : List Database.PassEnv)
    (h : (Database.RunFullGarbageCollection dr envs).2.isSome) :
    Database.Bracketed
      (Database.progOf (Database.RunFullGarbageCollection dr envs).1) := by
  refine ⟨Database.LStep.work ::
    (Database.fullGCLoop dr envs 0).1.map Database.stepOf, ?_, ?_⟩
  · have h' : (Database.fullGCLoop dr envs 0).2.isSome = true := h
    simp only [Database.RunFullGarbageCollection, Database.progOf, h',
      if_true, List.map_append, List.map_cons]
    simp [Database.stepOf]
  · intro x hx
    rcases List.mem_cons.mp hx with rfl | hx
    · rfl
    · obtain ⟨a, ha, rfl⟩ := List.mem_map.mp hx
      exact fullGCLoop_no_lock dr envs 0 a ha

/-- C5: `RunGarbageCollection` and `RunFullGarbageCollection` each take
the single process-wide GC lock exactly once — as their first action,
released as their last — with `RunFullGarbageCollection` holding it once
across all of its passes (no lock operation occurs inside the loop); and
in the interleaving semantics of two such lock-bracketed routines over
the shared lock, no reachable state has both inside their critical
sections, so a concurrent single pass blocks until the whole full run
finishes. -/
theorem c5_gc_mutual_exclusion :
    (∀ env, ((Database.RunGarbageCollection env).countP
        Database.isLockGC) = 1 ∧
      Database.Bracketed
        (Database.progOf (Database.RunGarbageCollection env))) ∧
    (∀ (dr : Option ℚ) (envs : List Database.PassEnv),
      ((Database.RunFullGarbageCollection dr envs).1.countP
          Database.isLockGC) = 1 ∧
        ((Database.RunFullGarbageCollection dr envs).2.isSome →
          Database.Bracketed
            (Database.progOf (Database.RunFullGarbageCollection dr envs).1))) ∧
    (∀ p1 p2, Database.Bracketed p1 → Database.Bracketed p2 →
      ∀ s, Database.Reach p1 p2 s →
        ¬(Database.inCritical p1 s.pc1 ∧ Database.inCritical p2 s.pc2)) := by
  refine ⟨fun env => ⟨?_, runGC_bracketed env⟩,
    fun dr envs => ⟨?_, runFullGC_bracketed dr envs⟩, reach_mutex⟩
  · obtain ⟨s, t, e⟩ := env
    rcases e with _ | e
    · simp [Database.RunGarbageCollection,
        Database.runGarbageCollectionWithoutLocking, List.countP_cons,
        Database.isLockGC]
    · rcases e with _ | c <;>
        simp [Database.RunGarbageCollection,
          Database.runGarbageCollectionWithoutLocking, List.countP_cons,
          Database.isLockGC]
  · have hz : ((Database.fullGCLoop dr envs 0).1.countP
        Database.isLockGC) = 0 := by
      rw [List.countP_eq_zero]
      intro a ha
      have hw := fullGCLoop_no_lock dr envs 0 a ha
      cases a <;> simp_all [Database.stepOf, Database.isLockGC]
    simp only [Database.RunFullGarbageCollection, List.countP_append,
      List.countP_cons, hz, Database.isLockGC]
    split_ifs <;> simp_all [List.countP_cons, Database.isLockGC]

/-- Witness for C5: concrete single-pass and (terminating) full runs
each count one lock acquisition, and from the initial interleaved state
neither is in its critical section. -/
theorem c5_gc_mutual_exclusion_witness :
    ((Database.RunGarbageCollection ⟨0, 1, none⟩).countP
      Database.isLockGC) = 1 ∧
    ((Database.RunFullGarbageCollection none
        [⟨0, 1, some .noRewrite⟩]).1.countP Database.isLockGC) = 1 ∧
    ¬(Database.inCritical
        (Database.progOf
          (Database.RunFullGarbageCollection none
            [⟨0, 1, some .noRewrite⟩]).1) 0 ∧
      Database.inCritical
        (Database.progOf (Database.RunGarbageCollection ⟨0, 1, none⟩)) 0) :=
  ⟨(c5_gc_mutual_exclusion.1 ⟨0, 1, none⟩).1,
   (c5_gc_mutual_exclusion.2.1 none [⟨0, 1, some .noRewrite⟩]).1,
   c5_gc_mutual_exclusion.2.2 _ _
     ((c5_gc_mutual_exclusion.2.1 none [⟨0, 1, some .noRewrite⟩]).2
       (by decide))
     ((c5_gc_mutual_exclusion.1 ⟨0, 1, none⟩).2)
     ⟨0, 0, none⟩ Relation.ReflTransGen.refl⟩
